import Mathlib

/-!
Verification of the retrieval core of the career-assistance backend
(`src/backend/utils/career_retriever.py`, `src/backend/agents/career_agent.py`,
`src/backend/utils/llm_utils.py`).

Shallow embedding conventions:
* Text is modelled as `List Char`; Python `str.strip` / `str.split` are
  re-implemented below with Python semantics.
* Embedding vectors are `List Int` (the embedding model is an opaque external
  function and is passed in as a parameter `embed`).
* The FAISS `IndexFlatL2` held in `self.index` is modelled by the list of
  stored vectors; `index.search` is embedded following FAISS's documented
  contract for exact flat L2 search: results sorted ascending by squared
  Euclidean distance, and when `k` exceeds `ntotal` the missing slots are
  padded with label `-1`.
* Fallible Python code returns `Except PyErr`; an uncaught exception is an
  `Except.error`.
-/

/-- Python whitespace: the characters removed by `str.strip()` with no
argument, i.e. those for which `str.isspace()` is true — the ASCII
whitespace `\x09`-`\x0d` and space, the separators `\x1c`-`\x1f`, NEL
`\x85`, NBSP `\xa0`, and the Unicode space characters (Ogham space mark,
`\u2000`-`\u200a`, line/paragraph separators, narrow NBSP, medium
mathematical space, ideographic space). -/
def pyWS (c : Char) : Bool :=
  c == ' ' || c == '\t' || c == '\n' || c == '\r' || c == '\x0b' || c == '\x0c' ||
  c == '\x1c' || c == '\x1d' || c == '\x1e' || c == '\x1f' ||
  c == '\x85' || c == '\xa0' || c == '\u1680' ||
  ('\u2000' ≤ c && c ≤ '\u200a') ||
  c == '\u2028' || c == '\u2029' || c == '\u202f' || c == '\u205f' || c == '\u3000'

/-- Python `s.strip()` on a list of characters. -/
def stripL (s : List Char) : List Char :=
  ((s.dropWhile pyWS).reverse.dropWhile pyWS).reverse

/-- Fuel-driven worker for `splitOnL` (structural recursion on the fuel so the
kernel can evaluate it). With fuel at least `s.length` it computes Python
`s.split sep` for a nonempty separator: leftmost, non-overlapping matches. -/
def splitGo (sep : List Char) : Nat → List Char → List (List Char)
  | _, [] => [[]]
  | 0, s => [s]
  | fuel + 1, c :: cs =>
    if sep ≠ [] ∧ sep <+: (c :: cs) then
      [] :: splitGo sep fuel ((c :: cs).drop sep.length)
    else
      match splitGo sep fuel cs with
      | [] => [[c]]
      | p :: ps => (c :: p) :: ps

/-- Python `s.split(sep)` for a nonempty separator `sep`. -/
def splitOnL (sep s : List Char) : List (List Char) :=
  splitGo sep s.length s

/-- The sentinel written between chunks by `CareerRetriever.save_index`
(source line: `f.write(doc.page_content + "\n---DOCUMENT_SEPARATOR---\n")`). -/
def SEP : List Char := "\n---DOCUMENT_SEPARATOR---\n".data

/-- The inner token of the sentinel (the sentinel without its newlines). -/
def TOKEN : List Char := "---DOCUMENT_SEPARATOR---".data

theorem SEP_eq : SEP = '\n' :: (TOKEN ++ ['\n']) := by decide

theorem SEP_length : SEP.length = 26 := by decide

theorem TOKEN_length : TOKEN.length = 24 := by decide

theorem newline_not_mem_TOKEN : '\n' ∉ TOKEN := by decide

-- sanity: Python-level split behaviour on small inputs
example : splitOnL ['x'] ['a', 'x', 'b'] = [['a'], ['b']] := by decide
example : splitOnL ['x'] ['x', 'a'] = [[], ['a']] := by decide
example : splitOnL ['x'] ['a', 'x'] = [['a'], []] := by decide
example : splitOnL ['a', 'a'] ['a', 'a', 'a'] = [[], ['a']] := by decide
example : splitOnL ['x'] [] = [[]] := by decide
example : stripL [' ', 'a', ' ', 'b', '\n'] = ['a', ' ', 'b'] := by decide
example : stripL ['a', '\xa0'] = ['a'] := by decide
example : stripL ['\x1c', 'a', '\u2009'] = ['a'] := by decide
example : stripL ['a', '\u3000'] = ['a'] := by decide

/-- Fuel irrelevance: `splitGo` does not depend on the fuel once the fuel covers the input
length. -/
theorem splitGo_fuel (sep : List Char) :
    ∀ f₁ : Nat, ∀ s : List Char, ∀ f₂ : Nat, s.length ≤ f₁ → s.length ≤ f₂ →
      splitGo sep f₁ s = splitGo sep f₂ s := by
  intro f₁
  induction f₁ with
  | zero =>
    intro s f₂ h₁ _
    cases s with
    | nil => cases f₂ <;> rfl
    | cons c cs => simp at h₁
  | succ g₁ ih =>
    intro s f₂ h₁ h₂
    cases s with
    | nil => cases f₂ <;> rfl
    | cons c cs =>
      cases f₂ with
      | zero => simp at h₂
      | succ g₂ =>
        simp only [splitGo]
        by_cases hcond : sep ≠ [] ∧ sep <+: (c :: cs)
        · rw [if_pos hcond, if_pos hcond]
          have hseplen : 1 ≤ sep.length := by
            cases hsep : sep with
            | nil => exact absurd hsep hcond.1
            | cons a as => simp
          simp only [List.length_cons] at h₁ h₂
          have hlen : ((c :: cs).drop sep.length).length ≤ g₁ := by
            simp only [List.length_drop, List.length_cons]
            omega
          have hlen2 : ((c :: cs).drop sep.length).length ≤ g₂ := by
            simp only [List.length_drop, List.length_cons]
            omega
          rw [ih _ _ hlen hlen2]
        · rw [if_neg hcond, if_neg hcond]
          have hlen : cs.length ≤ g₁ := by simp only [List.length_cons] at h₁; omega
          have hlen2 : cs.length ≤ g₂ := by simp only [List.length_cons] at h₂; omega
          rw [ih _ _ hlen hlen2]

theorem splitOnL_nil (sep : List Char) : splitOnL sep [] = [[]] := rfl

/-- Unfolding equation of `splitOnL` when the separator is a prefix of the
input. -/
theorem splitOnL_cons_pos (sep : List Char) (c : Char) (cs : List Char)
    (hsep : sep ≠ []) (hpre : sep <+: (c :: cs)) :
    splitOnL sep (c :: cs) = [] :: splitOnL sep ((c :: cs).drop sep.length) := by
  have hseplen : 1 ≤ sep.length := by
    cases h : sep with
    | nil => exact absurd h hsep
    | cons a as => simp
  show splitGo sep (c :: cs).length (c :: cs) = _
  have : (c :: cs).length = ((c :: cs).length - 1) + 1 := by simp
  rw [this]
  simp only [splitGo]
  rw [if_pos ⟨hsep, hpre⟩]
  congr 1
  apply splitGo_fuel
  · simp only [List.length_drop, List.length_cons]; omega
  · simp

/-- Unfolding equation of `splitOnL` when the separator is not a prefix of the
input. -/
theorem splitOnL_cons_neg (sep : List Char) (c : Char) (cs : List Char)
    (hcond : ¬(sep ≠ [] ∧ sep <+: (c :: cs))) :
    splitOnL sep (c :: cs) =
      match splitOnL sep cs with
      | [] => [[c]]
      | p :: ps => (c :: p) :: ps := by
  show splitGo sep (c :: cs).length (c :: cs) = _
  have : (c :: cs).length = cs.length + 1 := by simp
  rw [this]
  simp only [splitGo]
  rw [if_neg hcond]
  rfl

/-- Splitting always returns at least one piece. -/
theorem splitOnL_ne_nil (sep s : List Char) : splitOnL sep s ≠ [] := by
  cases s with
  | nil => simp [splitOnL_nil]
  | cons c cs =>
    by_cases hcond : sep ≠ [] ∧ sep <+: (c :: cs)
    · rw [splitOnL_cons_pos sep c cs hcond.1 hcond.2]
      simp
    · rw [splitOnL_cons_neg sep c cs hcond]
      cases h : splitOnL sep cs with
      | nil => simp
      | cons p ps => simp

/-- Splitting a string that begins with the separator peels off one empty
piece. -/
theorem splitOnL_sep_append (sep t : List Char) (hsep : sep ≠ []) :
    splitOnL sep (sep ++ t) = [] :: splitOnL sep t := by
  obtain ⟨a, as, rfl⟩ : ∃ a as, sep = a :: as := by
    cases sep with
    | nil => exact absurd rfl hsep
    | cons a as => exact ⟨a, as, rfl⟩
  rw [List.cons_append]
  rw [splitOnL_cons_pos (a :: as) a (as ++ t) hsep
    (by rw [← List.cons_append]; exact List.prefix_append _ _)]
  rw [← List.cons_append, List.drop_left]

/-- If no occurrence of `sep` starts strictly inside `c`, the first piece of
the split of `c ++ t` absorbs all of `c`. -/
theorem splitOnL_append_of_no_early (sep c t : List Char)
    (h : ∀ i, i < c.length → ¬ sep <+: (c ++ t).drop i) :
    ∃ p ps, splitOnL sep t = p :: ps ∧ splitOnL sep (c ++ t) = (c ++ p) :: ps := by
  induction c with
  | nil =>
    cases hsp : splitOnL sep t with
    | nil => exact absurd hsp (splitOnL_ne_nil sep t)
    | cons p ps => exact ⟨p, ps, rfl, by simpa using hsp⟩
  | cons x c' ih =>
    have hx : ¬ sep <+: (x :: (c' ++ t)) := by
      have h0 := h 0 (by simp)
      simpa using h0
    have hcond : ¬ (sep ≠ [] ∧ sep <+: (x :: (c' ++ t))) := fun hc => hx hc.2
    obtain ⟨p, ps, hsp, hc'⟩ := ih (fun i hi => by
      have hh := h (i + 1) (by simp only [List.length_cons]; omega)
      simpa [List.cons_append] using hh)
    refine ⟨p, ps, hsp, ?_⟩
    rw [List.cons_append, splitOnL_cons_neg sep x (c' ++ t) hcond, hc']
    rfl

/-- A chunk free of the sentinel's inner token admits no occurrence of the
sentinel starting strictly inside it when the sentinel follows it. -/
theorem no_early_sep (cl t : List Char) (hc : ¬ TOKEN <:+: cl) :
    ∀ i, i < cl.length → ¬ SEP <+: (cl ++ (SEP ++ t)).drop i := by
  intro i hi hpre
  obtain ⟨r, hr⟩ := hpre
  have hchar : ∀ j, j < 26 → (cl ++ (SEP ++ t))[i + j]? = SEP[j]? := by
    intro j hj
    rw [← List.getElem?_drop, ← hr]
    exact List.getElem?_append_left (by rw [SEP_length]; exact hj)
  by_cases hA : i + 25 ≤ cl.length
  · -- a full copy of the token would lie inside `cl`
    apply hc
    have heq : (cl.drop (i + 1)).take 24 = TOKEN := by
      apply List.ext_getElem?
      intro n
      rw [List.getElem?_take]
      by_cases hn : n < 24
      · rw [if_pos hn, List.getElem?_drop]
        have h1 : (cl ++ (SEP ++ t))[i + (1 + n)]? = SEP[1 + n]? :=
          hchar (1 + n) (by omega)
        have h2 : (cl ++ (SEP ++ t))[i + (1 + n)]? = cl[i + (1 + n)]? :=
          List.getElem?_append_left (by omega)
        have h3 : SEP[1 + n]? = TOKEN[n]? := by
          rw [SEP_eq]
          have hn1 : 1 + n = n + 1 := by omega
          rw [hn1, List.getElem?_cons_succ]
          exact List.getElem?_append_left (by rw [TOKEN_length]; exact hn)
        have h4 : i + 1 + n = i + (1 + n) := by omega
        rw [h4, ← h2, h1, h3]
      · rw [if_neg hn]
        exact (List.getElem?_eq_none (by rw [TOKEN_length]; omega)).symm
    rw [← heq]
    exact ⟨cl.take (i + 1), (cl.drop (i + 1)).drop 24, by
      rw [List.append_assoc, List.take_append_drop, List.take_append_drop]⟩
  · -- the occurrence would overlay the newline that opens the sentinel
    have h2 : (cl ++ (SEP ++ t))[cl.length]? = some '\n' := by
      rw [List.getElem?_append_right (Nat.le_refl _), Nat.sub_self]
      rw [SEP_eq, List.cons_append, List.getElem?_cons_zero]
    have hjlt : cl.length - i - 1 + 1 < 26 := by omega
    have h1 := hchar (cl.length - i - 1 + 1) hjlt
    have hij : i + (cl.length - i - 1 + 1) = cl.length := by omega
    rw [hij, h2] at h1
    have h3 : SEP[cl.length - i - 1 + 1]? = TOKEN[cl.length - i - 1]? := by
      rw [SEP_eq, List.getElem?_cons_succ]
      exact List.getElem?_append_left (by rw [TOKEN_length]; omega)
    rw [h3] at h1
    exact newline_not_mem_TOKEN (List.getElem?_mem h1.symm)

/-- Splitting `c ++ SEP ++ rest` where `c` is token-free yields `c` followed
by the split of `rest`. -/
theorem splitOnL_chunk (c t : List Char) (hc : ¬ TOKEN <:+: c) :
    splitOnL SEP (c ++ (SEP ++ t)) = c :: splitOnL SEP t := by
  obtain ⟨p, ps, hsp, happ⟩ :=
    splitOnL_append_of_no_early SEP c (SEP ++ t) (no_early_sep c t hc)
  rw [splitOnL_sep_append SEP t (by decide)] at hsp
  injection hsp with hp hps
  rw [happ, ← hp, ← hps, List.append_nil]

/-- The manifest file content written by `CareerRetriever.save_index`: each
chunk's `page_content` followed by the sentinel
(source: `f.write` of the content followed by a newline, the token, and a newline). -/
def saveString : List (List Char) → List Char
  | [] => []
  | d :: ds => d ++ (SEP ++ saveString ds)

/-- The document reconstruction performed by `CareerRetriever.load_index`:
`content.split` on the sentinel, then keep `t.strip()` for the
pieces whose stripped form is truthy (nonempty). -/
def parseDocs (content : List Char) : List (List Char) :=
  ((splitOnL SEP content).map stripL).filter (fun d => !d.isEmpty)

/-- Chunks that survive the manifest round-trip verbatim: nonempty, already
stripped, and free of the sentinel's inner token. -/
def goodChunk (d : List Char) : Prop :=
  d ≠ [] ∧ stripL d = d ∧ ¬ TOKEN <:+: d

instance goodChunk.dec : DecidablePred goodChunk := fun d => by
  unfold goodChunk
  exact inferInstance

theorem splitOnL_saveString (docs : List (List Char))
    (h : ∀ d ∈ docs, ¬ TOKEN <:+: d) :
    splitOnL SEP (saveString docs) = docs ++ [[]] := by
  induction docs with
  | nil => rfl
  | cons d ds ih =>
    rw [saveString, splitOnL_chunk d (saveString ds) (h d (by simp)),
        ih (fun x hx => h x (by simp [hx]))]
    rfl

/-- Lists of good chunks round-trip losslessly through the manifest format. -/
theorem parseDocs_saveString (docs : List (List Char))
    (h : ∀ d ∈ docs, goodChunk d) :
    parseDocs (saveString docs) = docs := by
  unfold parseDocs
  rw [splitOnL_saveString docs (fun d hd => (h d hd).2.2)]
  rw [List.map_append, List.filter_append]
  have h1 : docs.map stripL = docs := by
    rw [List.map_congr_left (fun d hd => (h d hd).2.1.trans rfl)]
    exact List.map_id docs
  have h2 : List.filter (fun d => !d.isEmpty) docs = docs := by
    rw [List.filter_eq_self]
    intro d hd
    simp [List.isEmpty_eq_false]
    exact (h d hd).1
  have h3 : (([[]] : List (List Char)).map stripL).filter (fun d => !d.isEmpty) = [] := by
    decide
  rw [h1, h2, h3, List.append_nil]

/-! ### The Retriever state and its operations

`CareerRetriever` holds `self.index` (a FAISS `IndexFlatL2`, `None` while
Unbuilt) and `self.documents` (the chunk list). The FAISS index contents are
modelled by the list of stored vectors, in insertion order. The embedding
model is an opaque external function `embed`; the chunker of
`split_documents` is likewise passed in as a function (it is realized in the
source by the external `RecursiveCharacterTextSplitter`; a model of it, used
for concrete instances, appears further down). -/

abbrev Vec := List Int

/-- Squared Euclidean (L2) distance, the metric of FAISS `IndexFlatL2`. -/
def sqDist (u v : Vec) : Int :=
  ((u.zip v).map (fun p => (p.1 - p.2) ^ 2)).sum

/-- Ranking relation of an exact flat-L2 search: ascending squared distance,
ties broken by insertion position. -/
def rankLe (d : Nat → Int) (i j : Nat) : Prop :=
  d i < d j ∨ (d i = d j ∧ i ≤ j)

instance rankLe.decRel (d : Nat → Int) : DecidableRel (rankLe d) := fun i j => by
  unfold rankLe
  exact inferInstance

theorem rankLe_total (d : Nat → Int) : ∀ i j, rankLe d i j ∨ rankLe d j i := by
  intro i j
  rcases lt_trichotomy (d i) (d j) with h | h | h
  · exact Or.inl (Or.inl h)
  · rcases Nat.le_total i j with hij | hij
    · exact Or.inl (Or.inr ⟨h, hij⟩)
    · exact Or.inr (Or.inr ⟨h.symm, hij⟩)
  · exact Or.inr (Or.inl h)

theorem rankLe_trans (d : Nat → Int) :
    ∀ i j k, rankLe d i j → rankLe d j k → rankLe d i k := by
  intro i j k hij hjk
  rcases hij with h | ⟨he, hle⟩ <;> rcases hjk with h2 | ⟨he2, hle2⟩
  · exact Or.inl (h.trans h2)
  · exact Or.inl (he2 ▸ h)
  · exact Or.inl (he ▸ h2)
  · exact Or.inr ⟨he.trans he2, hle.trans hle2⟩

/-- Model of `index.search(query_vector, k)` on a FAISS `IndexFlatL2` holding `vecs`,
returning the result labels only (the source ignores the distances array).
Per FAISS's documented contract for exact flat search the labels are the
stored positions sorted ascending by squared L2 distance to the query, and
when `k` exceeds `ntotal` the remaining slots are padded with label `-1`. -/
def faissSearch (vecs : List Vec) (q : Vec) (k : Nat) : List Int :=
  let d := fun i => sqDist q (vecs.getD i [])
  let order := List.insertionSort (rankLe d) (List.range vecs.length)
  (order.take k).map Int.ofNat ++ List.replicate (k - vecs.length) (-1)

/-- Python list indexing `l[i]`: negative indices count from the end;
`none` means the access raises `IndexError`. -/
def pyGet (l : List (List Char)) (i : Int) : Option (List Char) :=
  if 0 ≤ i then l[i.toNat]?
  else if 0 ≤ (l.length : Int) + i then l[((l.length : Int) + i).toNat]?
  else none

/-- Python exceptions that can escape the embedded operations. -/
inductive PyErr
  | indexError
  | readError
deriving DecidableEq, Repr

/-- The result-accumulation loop of `CareerRetriever.retrieve`:
`for idx in indices[0]: if idx < len(self.documents): results.append(self.documents[idx])`. -/
def retrLoop (documents : List (List Char)) : List Int → Except PyErr (List (List Char))
  | [] => .ok []
  | i :: is =>
    if i < (documents.length : Int) then
      match pyGet documents i with
      | some d => do
        let rest ← retrLoop documents is
        return d :: rest
      | none => .error .indexError
    else
      retrLoop documents is

/-- The mutable state of a `CareerRetriever`: `self.index` (`None` while no
index has been built or loaded) and `self.documents`. -/
structure Retriever where
  index : Option (List Vec)
  documents : List (List Char)
deriving DecidableEq, Repr

/-- Model of `CareerRetriever.retrieve(query, k)`. `kArg = none` models an omitted
`k` (Python `None`); the line `k = k or settings["TOP_K_RESULTS"]` replaces a
falsy `k` (`None` or `0`) by the configured default `topK`. When
`self.index is None` it prints a warning and returns the empty list. -/
def retrieve (embed : List Char → Vec) (topK : Nat) (s : Retriever)
    (q : List Char) (kArg : Option Nat) : Except PyErr (List (List Char)) :=
  match s.index with
  | none => .ok []
  | some vecs =>
    let k := match kArg with
      | none => topK
      | some k0 => if k0 = 0 then topK else k0
    retrLoop s.documents (faissSearch vecs (embed q) k)

/-- Persisted artifact on disk: missing, present but unreadable, or present
with readable content. -/
inductive FileState (α : Type)
  | missing
  | corrupt
  | content (a : α)
deriving DecidableEq, Repr

/-- The storage relevant to one career (topic key): the scraped raw-data file
read by `load_documents`, and the two artifacts written by `save_index`
(`{base}_index.faiss` and `{base}_docs.txt`). -/
structure Disk where
  raw : Option (List Char)
  indexFile : FileState (List Vec)
  docsFile : FileState (List Char)
deriving DecidableEq, Repr

/-- Model of `CareerRetriever.load_documents(career)`: reads the career's raw data
file, strips it, and yields one document when the stripped content is
nonempty (a missing path or file yields no documents). -/
def load_documents (raw : Option (List Char)) : List (List Char) :=
  match raw with
  | none => []
  | some content =>
    let d := stripL content
    if d.isEmpty then [] else [d]

/-- Model of `CareerRetriever.build_index(career)`, with the document loading already
performed (`docs`), the chunker of `split_documents` and the embedding model
passed as functions. The second component is the caller-visible result: the
Python method returns `None` on every path (both the early `return` when no
documents are found — it only prints a warning — and the successful fall
through), so it is `none` in both branches; `Option Unit` is the channel on
which a "no data" error would have to be reported to the caller. -/
def build_index (chunker : List (List Char) → List (List Char))
    (embed : List Char → Vec) (s : Retriever) (docs : List (List Char)) :
    Retriever × Option Unit :=
  if docs.isEmpty then
    (s, none)
  else
    let chunks := chunker docs
    ({ index := some (chunks.map embed), documents := chunks }, none)

/-- Model of `CareerRetriever.save_index(career)`: writes the FAISS index file and the
chunk manifest; with `self.index is None` it prints a warning and writes
nothing. -/
def save_index (s : Retriever) (d : Disk) : Disk :=
  match s.index with
  | none => d
  | some vecs =>
    { d with indexFile := .content vecs, docsFile := .content (saveString s.documents) }

/-- Model of `CareerRetriever.load_index(career)`. A missing index file returns
`False` with the state untouched. An unreadable index file makes
`faiss.read_index` raise, and no handler catches it. Otherwise `self.index`
is assigned first; only the manifest read is inside `try`, so a missing or
unreadable manifest returns `False` with the freshly loaded index left in
place. -/
def load_index (s : Retriever) (d : Disk) : Except PyErr (Retriever × Bool) :=
  match d.indexFile with
  | .missing => .ok (s, false)
  | .corrupt => .error .readError
  | .content vecs =>
    let s1 : Retriever := { s with index := some vecs }
    match d.docsFile with
    | .content text => .ok ({ s1 with documents := parseDocs text }, true)
    | _ => .ok (s1, false)

/-- Model of `RoadmapAgent._get_or_create_index(career)` (the underscore of the Python name dropped): try `load_index`; on
failure, scrape (the scraper is external — `scraped` is whatever
`save_scraped_data` leaves in the raw-data file), then `build_index`,
`save_index`, and return `True` unconditionally. -/
def get_or_create_index (chunker : List (List Char) → List (List Char))
    (embed : List Char → Vec) (s : Retriever) (d : Disk)
    (scraped : Option (List Char)) : Except PyErr (Retriever × Disk × Bool) := do
  let (s1, ok) ← load_index s d
  if ok then
    return (s1, d, true)
  else
    let d1 : Disk := { d with raw := scraped }
    let docs := load_documents d1.raw
    let (s2, _) := build_index chunker embed s1 docs
    let d2 := save_index s2 d1
    return (s2, d2, true)

/-! ### The Chunker (spec §4.1)

Modelled from the spec: the Chunker is realized in the source by langchain's
`RecursiveCharacterTextSplitter` (an external library, not under `src/`),
instantiated by `CareerRetriever.split_documents` with
`chunk_size = settings["CHUNK_SIZE"]`, `chunk_overlap = settings["CHUNK_OVERLAP"]`
and separators `["\n\n", "\n", ".", " ", ""]`. Per the spec it prefers the
latest natural boundary (paragraph, then line, then sentence, then word)
inside the current window, falls back to a hard character cut, makes each
chunk after the first overlap the tail of its predecessor by `chunk_overlap`
characters, and produces no chunk longer than `chunk_size`. -/

/-- Largest end position `e ≤ w.length` such that `sep` ends at `e` in `w`. -/
def sepEnd (sep w : List Char) : Option Nat :=
  ((List.range (w.length + 1)).filter (fun e => sep.isSuffixOf (w.take e))).getLast?

/-- Cut position inside the current window: end of the last paragraph break,
else of the last newline, else of the last sentence end, else of the last
space, else a hard cut at `size`. -/
def chooseCut (size : Nat) (w : List Char) : Nat :=
  match sepEnd ['\n', '\n'] w with
  | some e => e
  | none =>
    match sepEnd ['\n'] w with
    | some e => e
    | none =>
      match sepEnd ['.'] w with
      | some e => e
      | none =>
        match sepEnd [' '] w with
        | some e => e
        | none => size

/-- Fuel-driven chunking loop (fuel `s.length` suffices: every step consumes
at least one character). -/
def chunkGo (size overlap : Nat) : Nat → List Char → List (List Char)
  | 0, _ => []
  | fuel + 1, s =>
    if s.isEmpty then []
    else if s.length ≤ size then [s]
    else
      let w := s.take size
      let cut := chooseCut size w
      let step := max 1 (cut - overlap)
      w.take cut :: chunkGo size overlap fuel (s.drop step)

/-- Chunk one document's text. -/
def chunkText (size overlap : Nat) (s : List Char) : List (List Char) :=
  chunkGo size overlap s.length s

/-- Model of `CareerRetriever.split_documents`: chunk every document, in order. -/
def split_documents (size overlap : Nat) (docs : List (List Char)) :
    List (List Char) :=
  (docs.map (chunkText size overlap)).flatten

/-- Every chunk the loop produces is at most `size` characters long. -/
theorem chunkGo_length_le (size overlap : Nat) :
    ∀ fuel s ch, ch ∈ chunkGo size overlap fuel s → ch.length ≤ size := by
  intro fuel
  induction fuel with
  | zero =>
    intro s ch h
    simp [chunkGo] at h
  | succ f ih =>
    intro s ch h
    rw [chunkGo] at h
    by_cases h0 : s.isEmpty
    · rw [if_pos h0] at h
      simp at h
    · rw [if_neg h0] at h
      by_cases h1 : s.length ≤ size
      · rw [if_pos h1] at h
        simp at h
        rw [h]
        exact h1
      · rw [if_neg h1] at h
        rcases List.mem_cons.mp h with hh | hh
        · rw [hh]
          simp [List.length_take]
        · exact ih _ _ hh

/-- Every chunk `split_documents` produces is at most `size` characters. -/
theorem split_documents_length_le (size overlap : Nat)
    (docs : List (List Char)) :
    ∀ ch ∈ split_documents size overlap docs, ch.length ≤ size := by
  intro ch h
  rw [split_documents] at h
  obtain ⟨l, hl, hch⟩ := List.mem_flatten.mp h
  obtain ⟨dcl, _, hdoc⟩ := List.mem_map.mp hl
  rw [← hdoc] at hch
  exact chunkGo_length_le size overlap _ _ ch hch

/-! ### Helper lemmas about the search and the retrieval loop -/

theorem mem_insertionSort_range_lt (r : Nat → Nat → Prop) [DecidableRel r]
    (n i : Nat) (h : i ∈ List.insertionSort r (List.range n)) : i < n :=
  List.mem_range.mp ((List.perm_insertionSort r (List.range n)).mem_iff.mp h)

/-- On a list of valid nonnegative labels the retrieval loop succeeds and
returns exactly the addressed documents, in label order. -/
theorem retrLoop_map (docs : List (List Char)) :
    ∀ js : List Int, (∀ i ∈ js, 0 ≤ i ∧ i < (docs.length : Int)) →
      retrLoop docs js = .ok (js.map (fun i => docs.getD i.toNat [])) := by
  intro js
  induction js with
  | nil => intro _; rfl
  | cons i is ih =>
    intro h
    obtain ⟨h0, hlt⟩ := h i (by simp)
    rw [retrLoop, if_pos hlt]
    have hlt' : i.toNat < docs.length := by omega
    have hj : pyGet docs i = some (docs.getD i.toNat []) := by
      rw [pyGet, if_pos h0, List.getElem?_eq_getElem hlt',
        List.getD_eq_getElem docs [] hlt']
    rw [hj, ih (fun x hx => h x (by simp [hx]))]
    rfl

/-- On a list of labels that are in Python range (allowing negative indices
back to `-len`), the retrieval loop succeeds and returns one document per
label. -/
theorem retrLoop_length (docs : List (List Char)) :
    ∀ js : List Int,
      (∀ i ∈ js, -(docs.length : Int) ≤ i ∧ i < (docs.length : Int)) →
      ∃ res, retrLoop docs js = .ok res ∧ res.length = js.length := by
  intro js
  induction js with
  | nil => intro _; exact ⟨[], rfl, rfl⟩
  | cons i is ih =>
    intro h
    obtain ⟨hge, hlt⟩ := h i (by simp)
    obtain ⟨res, hres, hlen⟩ := ih (fun x hx => h x (by simp [hx]))
    rw [retrLoop, if_pos hlt]
    by_cases h0 : 0 ≤ i
    · have hlt' : i.toNat < docs.length := by omega
      rw [pyGet, if_pos h0, List.getElem?_eq_getElem hlt']
      refine ⟨docs[i.toNat] :: res, ?_, by simp [hlen]⟩
      rw [hres]
      rfl
    · have hpos : 0 ≤ (docs.length : Int) + i := by omega
      have hlt' : ((docs.length : Int) + i).toNat < docs.length := by omega
      rw [pyGet, if_neg h0, if_pos hpos, List.getElem?_eq_getElem hlt']
      refine ⟨docs[((docs.length : Int) + i).toNat] :: res, ?_, by simp [hlen]⟩
      rw [hres]
      rfl

/-- Every label produced by the modelled FAISS search is within Python range
for a document list of matching length, provided at least one vector is
stored. -/
theorem faissSearch_mem_range (vecs : List Vec) (q : Vec) (k : Nat)
    (hne : vecs ≠ []) :
    ∀ i ∈ faissSearch vecs q k,
      -(vecs.length : Int) ≤ i ∧ i < (vecs.length : Int) := by
  intro i hi
  have hn : 1 ≤ vecs.length := List.length_pos.mpr hne
  simp only [faissSearch] at hi
  rcases List.mem_append.mp hi with hm | hm
  · obtain ⟨m, hmem, hmi⟩ := List.mem_map.mp hm
    have hmlt : m < vecs.length :=
      mem_insertionSort_range_lt _ vecs.length m
        ((List.take_sublist k _).subset hmem)
    subst hmi
    simp only [Int.ofNat_eq_natCast]
    constructor <;> omega
  · have h1 : i = -1 := List.eq_of_mem_replicate hm
    subst h1
    constructor <;> omega

/-- The modelled FAISS search returns `k` labels whenever `k ≤ ntotal` (no
padding), and `k` labels with padding otherwise; in both cases at least one
label when `1 ≤ k` and the index is nonempty. -/
theorem length_insertionSort_range (r : Nat → Nat → Prop) [DecidableRel r]
    (n : Nat) : (List.insertionSort r (List.range n)).length = n := by
  rw [(List.perm_insertionSort r (List.range n)).length_eq, List.length_range]

/-- The modelled FAISS search returns `min k ntotal` real labels plus
`k - ntotal` padding labels. -/
theorem faissSearch_length (vecs : List Vec) (q : Vec) (k : Nat) :
    (faissSearch vecs q k).length = min k vecs.length + (k - vecs.length) := by
  simp only [faissSearch, List.length_append, List.length_map, List.length_take,
    List.length_replicate, length_insertionSort_range]

/-- Saving a built Retriever and loading it back restores both fields exactly
(from any starting state), provided every chunk survives the manifest
round-trip. -/
theorem load_save_roundtrip (s : Retriever) (d : Disk) (vecs : List Vec)
    (hidx : s.index = some vecs) (hg : ∀ c ∈ s.documents, goodChunk c)
    (s₀ : Retriever) :
    load_index s₀ (save_index s d) = .ok (⟨some vecs, s.documents⟩, true) := by
  rw [save_index, hidx]
  rw [load_index]
  simp only
  rw [parseDocs_saveString s.documents hg]

/-- A concrete embedding function used for instantiations: distances from
the query `"q"` to the chunks `"a"`, `"b"`, `"c"`, `"A"`, `"B"` are
`0, 1, 4, 100, 0` respectively. -/
def emC : List Char → Vec := fun d =>
  if d = ['a'] then [0]
  else if d = ['b'] then [1]
  else if d = ['c'] then [2]
  else if d = ['A'] then [10]
  else [0]

/-- A chunk whose content contains the manifest sentinel. -/
def badChunk : List Char := "a\n---DOCUMENT_SEPARATOR---\nb".data

/-! ### Claims -/

/-- C1 (counterexample): with the Retriever Unbuilt (`self.index is None`),
`retrieve` does not fail with a NotReady error; at this concrete unbuilt
state and query it prints a warning and returns a normal, silently empty
result list — the very outcome the claim rules out. -/
theorem C1_counterexample :
    retrieve emC 5 ⟨none, []⟩ ['q'] (some 3) = .ok [] := rfl

/-- C1 (amended): for every query, every `k` argument and every configured
default, `retrieve` on a Retriever whose index is `None` returns the empty
list without raising any error; callers cannot distinguish this from a
successful retrieval with no hits. -/
theorem C1_retrieve_unbuilt (embed : List Char → Vec) (topK : Nat)
    (s : Retriever) (q : List Char) (kArg : Option Nat)
    (h : s.index = none) :
    retrieve embed topK s q kArg = .ok [] := by
  unfold retrieve
  rw [h]

/-- C1 (witness). -/
theorem C1_witness :
    (⟨none, [['a']]⟩ : Retriever).index = none ∧
      retrieve emC 7 ⟨none, [['a']]⟩ ['z'] none = .ok [] :=
  ⟨rfl, C1_retrieve_unbuilt emC 7 ⟨none, [['a']]⟩ ['z'] none rfl⟩

/-- C2 (code bug, evaluated at the failing input): an index holding `N = 3`
vectors queried through `retrieve` with `k = 10 > N`. FAISS pads the label
array with `-1` for the 7 missing neighbours; the guard
`idx < len(self.documents)` admits `-1`, and Python's negative indexing
resolves `self.documents[-1]` to the last chunk. The call therefore returns
10 chunks with the last stored chunk appearing 8 times — not the 3 stored
chunks once each as the claim (and the spec's scenario) states. -/
theorem C2_padding_duplicates_last_chunk :
    retrieve emC 5 ⟨some [[0], [1], [2]], [['a'], ['b'], ['c']]⟩ ['q'] (some 10) =
      .ok [['a'], ['b'], ['c'], ['c'], ['c'], ['c'], ['c'], ['c'], ['c'], ['c']] :=
  rfl

/-- C3 (counterexample): a Retriever holding the single chunk
`"a\x5cn---DOCUMENT_SEPARATOR---\x5cnb"` (content containing the separator
sequence). `save_index` followed by `load_index` does not restore it: the
loaded Retriever holds the two chunks `"a"` and `"b"` instead. -/
theorem C3_counterexample :
    load_index ⟨none, []⟩
        (save_index ⟨some [[5]], [badChunk]⟩ ⟨none, .missing, .missing⟩) =
      .ok (⟨some [[5]], [['a'], ['b']]⟩, true) ∧
    [['a'], ['b']] ≠ [badChunk] := by
  exact ⟨rfl, by decide⟩

/-- C3 (amended): `save_index` followed by `load_index` restores exactly the
same chunk sequence — same number, same order, character-identical —
provided every chunk is nonempty, carries no leading or trailing whitespace,
and does not contain the sentinel's inner token `---DOCUMENT_SEPARATOR---`.
(The counterexample shows the restriction is needed: the format neither
escapes the sentinel nor preserves whitespace-only or unstripped chunks.) -/
theorem C3_roundtrip_good_chunks (s : Retriever) (d : Disk) (vecs : List Vec)
    (s₀ : Retriever) (hidx : s.index = some vecs)
    (hg : ∀ c ∈ s.documents, goodChunk c) :
    load_index s₀ (save_index s d) = .ok (⟨some vecs, s.documents⟩, true) :=
  load_save_roundtrip s d vecs hidx hg s₀

/-- C3 (witness). -/
theorem C3_witness :
    (⟨some [[3]], [['a'], ['b', 'c']]⟩ : Retriever).index = some [[3]] ∧
      (∀ c ∈ (⟨some [[3]], [['a'], ['b', 'c']]⟩ : Retriever).documents, goodChunk c) ∧
      load_index ⟨none, []⟩
          (save_index ⟨some [[3]], [['a'], ['b', 'c']]⟩ ⟨none, .missing, .missing⟩) =
        .ok (⟨some [[3]], [['a'], ['b', 'c']]⟩, true) :=
  ⟨rfl, by decide,
    C3_roundtrip_good_chunks ⟨some [[3]], [['a'], ['b', 'c']]⟩
      ⟨none, .missing, .missing⟩ [[3]] ⟨none, []⟩ rfl (by decide)⟩

/-- C4 (counterexample): build an index from the single raw document
`"a\x5cn---DOCUMENT_SEPARATOR---\x5cnb"`. It fits into one chunk
(`chunk_size = 1000`), so the built Retriever holds 1 chunk and 1 vector;
after `save_index` + `load_index` the index still stores that 1 vector but
the document list holds 2 chunks — the vector count no longer equals the
chunk count and position `1` has no vector at all, so the claimed invariant
fails across save/load. -/
theorem C4_counterexample :
    (build_index (split_documents 1000 200) emC ⟨none, []⟩ [badChunk]).1 =
        ⟨some [[0]], [badChunk]⟩ ∧
      load_index ⟨none, []⟩
          (save_index ⟨some [[0]], [badChunk]⟩ ⟨none, .missing, .missing⟩) =
        .ok (⟨some [[0]], [['a'], ['b']]⟩, true) ∧
      ¬ ([[0]] : List Vec).length = ([['a'], ['b']] : List (List Char)).length := by
  exact ⟨rfl, rfl, by decide⟩

/-- C4 (amended): after every successful `build_index` the number of stored
vectors equals the number of chunk documents and vector `i` is the embedding
of chunk `i`; and the whole state (hence the count equality and the
positional correspondence) survives `save_index` followed by `load_index`
provided every chunk is nonempty, stripped, and free of the sentinel's inner
token. -/
theorem C4_build_invariant (chunker : List (List Char) → List (List Char))
    (embed : List Char → Vec) (s : Retriever) (docs : List (List Char))
    (hne : docs ≠ []) :
    (∃ vecs, ((build_index chunker embed s docs).1).index = some vecs ∧
        vecs.length = ((build_index chunker embed s docs).1).documents.length ∧
        vecs = ((build_index chunker embed s docs).1).documents.map embed) ∧
      (∀ d s₀, (∀ c ∈ ((build_index chunker embed s docs).1).documents, goodChunk c) →
        load_index s₀ (save_index ((build_index chunker embed s docs).1) d) =
          .ok ((build_index chunker embed s docs).1, true)) := by
  have hne' : docs.isEmpty = false := by
    rw [List.isEmpty_eq_false]
    exact hne
  rw [build_index, hne']
  simp only [Bool.false_eq_true, if_false]
  refine ⟨⟨(chunker docs).map embed, rfl, by rw [List.length_map], rfl⟩, ?_⟩
  intro d s₀ hg
  exact load_save_roundtrip _ d _ rfl hg s₀

/-- C4 (witness). -/
theorem C4_witness :
    ([['a'], ['b', 'c']] : List (List Char)) ≠ [] ∧
      (∃ vecs,
          ((build_index id emC ⟨none, []⟩ [['a'], ['b', 'c']]).1).index = some vecs ∧
          vecs.length =
            ((build_index id emC ⟨none, []⟩ [['a'], ['b', 'c']]).1).documents.length ∧
          vecs = ((build_index id emC ⟨none, []⟩ [['a'], ['b', 'c']]).1).documents.map emC) ∧
      (∀ d s₀,
        (∀ c ∈ ((build_index id emC ⟨none, []⟩ [['a'], ['b', 'c']]).1).documents, goodChunk c) →
        load_index s₀ (save_index ((build_index id emC ⟨none, []⟩ [['a'], ['b', 'c']]).1) d) =
          .ok ((build_index id emC ⟨none, []⟩ [['a'], ['b', 'c']]).1, true)) :=
  ⟨by decide,
    (C4_build_invariant id emC ⟨none, []⟩ [['a'], ['b', 'c']] (by decide)).1,
    (C4_build_invariant id emC ⟨none, []⟩ [['a'], ['b', 'c']] (by decide)).2⟩

/-- C5 (counterexample): at a concrete Unbuilt state, `build_index` over an
empty document set leaves the state unchanged — but the caller-visible
result is `none` (the Python method returns `None` and merely prints a
warning), exactly the value a successful build returns, as the second
conjunct shows at the same state with a nonempty document set. No
DataUnavailable condition is reported to the caller. -/
theorem C5_counterexample :
    build_index id emC ⟨none, []⟩ [] = (⟨none, []⟩, none) ∧
      (build_index id emC ⟨none, []⟩ [['a']]).2 = none :=
  ⟨rfl, rfl⟩

/-- C5 (amended): for every chunker, embedder and starting state,
`build_index` over an empty document set leaves the Retriever exactly as it
was — an Unbuilt Retriever stays Unbuilt, its index `None` and its chunk
list unchanged — but it reports nothing to its caller: the return value is
`none`, identical to that of a successful build, so the caller cannot
observe the "no data" condition. -/
theorem C5_build_empty_unchanged
    (chunker : List (List Char) → List (List Char))
    (embed : List Char → Vec) (s : Retriever) :
    build_index chunker embed s [] = (s, none) := rfl

/-- C6 (counterexample): with the persisted index file present and readable
but the manifest missing, `load_index` reports failure (`False`) yet leaves
the freshly read index assigned — a state distinguishable from Unbuilt. A
subsequent `retrieve` is not a NotReady failure: it queries the
partially-loaded state and raises `IndexError`
(`self.documents[-1]` on the stale empty document list). -/
theorem C6_counterexample :
    load_index ⟨none, []⟩ ⟨none, .content [[1]], .missing⟩ =
        .ok (⟨some [[1]], []⟩, false) ∧
      (⟨some [[1]], []⟩ : Retriever).index ≠ none ∧
      retrieve emC 5 ⟨some [[1]], []⟩ ['q'] (some 2) = .error .indexError := by
  refine ⟨rfl, by decide, rfl⟩

/-- C6 (amended): when the persisted index file is missing, `load_index`
reports failure and leaves the Retriever untouched — in particular an
Unbuilt Retriever remains Unbuilt and a rebuild is triggered. When the index
file is readable but the manifest is not, the method still returns `False`
but leaves the loaded index assigned (partially-loaded state, see the
counterexample); an unreadable index file raises out of `load_index`
uncaught. -/
theorem C6_load_missing_index (s : Retriever) (d : Disk)
    (h : d.indexFile = .missing) :
    load_index s d = .ok (s, false) := by
  unfold load_index
  rw [h]

/-- C6 (witness). -/
theorem C6_witness :
    (⟨none, .missing, .missing⟩ : Disk).indexFile = .missing ∧
      load_index ⟨none, [['a']]⟩ ⟨none, .missing, .missing⟩ =
        .ok (⟨none, [['a']]⟩, false) :=
  ⟨rfl, C6_load_missing_index ⟨none, [['a']]⟩ ⟨none, .missing, .missing⟩ rfl⟩

/-- C7 (counterexample): a faithfully built Ready Retriever with `N = 2`
stored vectors (the stored vectors are the embeddings of the chunks),
queried with `k = 3 > N`. The padding label `-1` re-selects the last chunk,
and the result list `["B", "A", "B"]` is not sorted ascending by squared
distance to the query: the distances are `[0, 100, 0]`. -/
theorem C7_counterexample :
    retrieve emC 5 ⟨some [[10], [0]], [['A'], ['B']]⟩ ['q'] (some 3) =
        .ok [['B'], ['A'], ['B']] ∧
      [[10], [0]] = ([['A'], ['B']] : List (List Char)).map emC ∧
      ¬ (([['B'], ['A'], ['B']] : List (List Char)).map
          (fun ch => sqDist (emC ['q']) (emC ch))).Pairwise (· ≤ ·) := by
  refine ⟨rfl, rfl, by decide⟩

/-- C7 (amended): on a Ready Retriever whose stored vectors are the
embeddings of its chunks, `retrieve` with `1 ≤ k ≤ ntotal` returns exactly
`k` chunks sorted ascending by squared Euclidean distance between the query
embedding and each chunk's embedding (so in particular the first distance is
at most the last). For `k > ntotal` the `-1` padding repeats the last chunk
and can break the ordering (see the counterexample). -/
theorem C7_sorted_within_ntotal (embed : List Char → Vec) (topK : Nat)
    (s : Retriever) (q : List Char) (k : Nat) (vecs : List Vec)
    (hidx : s.index = some vecs) (hmap : vecs = s.documents.map embed)
    (hk1 : 1 ≤ k) (hkn : k ≤ vecs.length) :
    ∃ res, retrieve embed topK s q (some k) = .ok res ∧ res.length = k ∧
      (res.map fun ch => sqDist (embed q) (embed ch)).Pairwise (· ≤ ·) := by
  have hlen : s.documents.length = vecs.length := by rw [hmap, List.length_map]
  have hpad : k - vecs.length = 0 := Nat.sub_eq_zero_of_le hkn
  have hsearch : faissSearch vecs (embed q) k =
      (List.take k (List.insertionSort
        (rankLe fun i => sqDist (embed q) (vecs.getD i []))
        (List.range vecs.length))).map Int.ofNat := by
    rw [faissSearch]
    simp only [hpad, List.replicate_zero, List.append_nil]
  unfold retrieve
  rw [hidx]
  simp only
  rw [if_neg (by omega : ¬ k = 0)]
  rw [hsearch]
  set order := List.insertionSort
    (rankLe fun i => sqDist (embed q) (vecs.getD i []))
    (List.range vecs.length) with horder
  have hvalid : ∀ i ∈ (order.take k).map Int.ofNat,
      0 ≤ i ∧ i < (s.documents.length : Int) := by
    intro i hi
    obtain ⟨m, hmem, hmi⟩ := List.mem_map.mp hi
    have hmlt : m < vecs.length :=
      mem_insertionSort_range_lt _ vecs.length m
        ((List.take_sublist k _).subset hmem)
    subst hmi
    simp only [Int.ofNat_eq_natCast]
    constructor <;> omega
  rw [retrLoop_map s.documents _ hvalid]
  refine ⟨_, rfl, ?_, ?_⟩
  · rw [List.length_map, List.length_map, List.length_take, horder,
      length_insertionSort_range]
    omega
  · rw [List.map_map, List.map_map]
    have hsorted : List.Pairwise
        (rankLe fun i => sqDist (embed q) (vecs.getD i [])) order := by
      haveI : IsTotal Nat (rankLe fun i => sqDist (embed q) (vecs.getD i [])) :=
        ⟨rankLe_total _⟩
      haveI : IsTrans Nat (rankLe fun i => sqDist (embed q) (vecs.getD i [])) :=
        ⟨rankLe_trans _⟩
      exact List.sorted_insertionSort _ _
    have htake : List.Pairwise
        (rankLe fun i => sqDist (embed q) (vecs.getD i [])) (order.take k) :=
      List.Pairwise.sublist (List.take_sublist k order) hsorted
    rw [List.pairwise_map]
    refine List.Pairwise.imp_of_mem ?_ htake
    intro a b ha hb hr
    have halt : a < vecs.length :=
      mem_insertionSort_range_lt _ vecs.length a ((List.take_sublist k _).subset ha)
    have hblt : b < vecs.length :=
      mem_insertionSort_range_lt _ vecs.length b ((List.take_sublist k _).subset hb)
    have hda : vecs.getD a [] = embed (s.documents.getD a []) := by
      rw [hmap, List.getD_eq_getElem _ _ (by rw [List.length_map]; omega),
        List.getElem_map, List.getD_eq_getElem _ _ (by omega)]
    have hdb : vecs.getD b [] = embed (s.documents.getD b []) := by
      rw [hmap, List.getD_eq_getElem _ _ (by rw [List.length_map]; omega),
        List.getElem_map, List.getD_eq_getElem _ _ (by omega)]
    simp only [Function.comp, Int.ofNat_eq_natCast, Int.toNat_ofNat, ← hda, ← hdb]
    rcases hr with h | ⟨he, _⟩
    · exact le_of_lt h
    · exact le_of_eq he

/-- C7 (witness). -/
theorem C7_witness :
    (⟨some [[10], [0]], [['A'], ['B']]⟩ : Retriever).index = some [[10], [0]] ∧
      [[10], [0]] = ([['A'], ['B']] : List (List Char)).map emC ∧
      (1 : Nat) ≤ 2 ∧ 2 ≤ ([[10], [0]] : List Vec).length ∧
      (∃ res,
        retrieve emC 5 ⟨some [[10], [0]], [['A'], ['B']]⟩ ['q'] (some 2) = .ok res ∧
          res.length = 2 ∧
          (res.map fun ch => sqDist (emC ['q']) (emC ch)).Pairwise (· ≤ ·)) :=
  ⟨rfl, rfl, by decide, by decide,
    C7_sorted_within_ntotal emC 5 ⟨some [[10], [0]], [['A'], ['B']]⟩ ['q'] 2
      [[10], [0]] rfl rfl (by decide) (by decide)⟩

/-- C8 (counterexample): with nothing persisted and an empty document store
(the scraper produced nothing usable), `_get_or_create_index` still returns
`True` while the Retriever never reached Ready — its index is `None`. The
returned bool does not reflect whether the Retriever is Ready. -/
theorem C8_counterexample :
    get_or_create_index id emC ⟨none, []⟩ ⟨none, .missing, .missing⟩ none =
        .ok (⟨none, []⟩, ⟨none, .missing, .missing⟩, true) ∧
      (⟨none, []⟩ : Retriever).index = none := by
  exact ⟨rfl, rfl⟩

/-- C8 (amended): `_get_or_create_index` returns `True` unconditionally
(even when the build produced nothing, see counterexample). It is idempotent
in the successful case: once a built state (index present) whose chunks are
nonempty, stripped and sentinel-free has been saved, a further call is a
no-op — it reloads exactly the same Retriever state and leaves the disk
untouched, so the index has the same size and search behaviour is
identical. -/
theorem C8_idempotent_after_save
    (chunker : List (List Char) → List (List Char))
    (embed : List Char → Vec) (s : Retriever) (d : Disk)
    (vecs : List Vec) (scraped : Option (List Char))
    (hidx : s.index = some vecs) (hg : ∀ c ∈ s.documents, goodChunk c) :
    get_or_create_index chunker embed s (save_index s d) scraped =
      .ok (s, save_index s d, true) := by
  have hs : (⟨some vecs, s.documents⟩ : Retriever) = s := by
    obtain ⟨idx, docsl⟩ := s
    have hidx' : idx = some vecs := hidx
    rw [hidx']
  unfold get_or_create_index
  rw [load_save_roundtrip s d vecs hidx hg s, hs]
  rfl

/-- C8 (witness). -/
theorem C8_witness :
    (⟨some [[2]], [['a']]⟩ : Retriever).index = some [[2]] ∧
      (∀ c ∈ (⟨some [[2]], [['a']]⟩ : Retriever).documents, goodChunk c) ∧
      get_or_create_index id emC ⟨some [[2]], [['a']]⟩
          (save_index ⟨some [[2]], [['a']]⟩ ⟨none, .missing, .missing⟩) none =
        .ok (⟨some [[2]], [['a']]⟩,
          save_index ⟨some [[2]], [['a']]⟩ ⟨none, .missing, .missing⟩, true) :=
  ⟨rfl, by decide,
    C8_idempotent_after_save id emC ⟨some [[2]], [['a']]⟩
      ⟨none, .missing, .missing⟩ [[2]] none rfl (by decide)⟩

/-- C9: for every positive `chunk_size` and every `chunk_overlap < chunk_size`,
no chunk produced by the chunker from any input document sequence exceeds
`chunk_size` characters. (The chunker is realized by an external library;
the definition verified here is modelled from spec §4.1.) -/
theorem C9_chunk_size_bound (size overlap : Nat) (docs : List (List Char))
    (ch : List Char) (_hsize : 0 < size) (_hov : overlap < size)
    (hmem : ch ∈ split_documents size overlap docs) :
    ch.length ≤ size :=
  split_documents_length_le size overlap docs ch hmem

/-- C9 (witness): the spec §8 scenario — one 67-character document,
`chunk_size = 40`, `chunk_overlap = 10`; the first produced chunk is within
bounds (and the model indeed produces 2 overlapping chunks). -/
theorem C9_witness :
    (0 : Nat) < 40 ∧ (10 : Nat) < 40 ∧
      "Python is great for data science and ".data ∈
        split_documents 40 10
          ["Python is great for data science and has role in machine learning.".data] ∧
      ("Python is great for data science and ".data).length ≤ 40 :=
  ⟨by decide, by decide, by decide,
    C9_chunk_size_bound 40 10
      ["Python is great for data science and has role in machine learning.".data]
      "Python is great for data science and ".data
      (by decide) (by decide) (by decide)⟩

/-- C10: on a Ready Retriever, `k = 0` and an omitted `k` (Python `None`)
behave exactly like `k = TOP_K_RESULTS`, because
`k = k or settings["TOP_K_RESULTS"]` replaces every falsy `k`; with at least
one stored vector and a consistent document list the result is nonempty, not
zero results. -/
theorem C10_k_fallback (embed : List Char → Vec) (topK : Nat) (s : Retriever)
    (q : List Char) (vecs : List Vec)
    (hidx : s.index = some vecs) (hne : vecs ≠ [])
    (hlen : s.documents.length = vecs.length) (htop : 0 < topK) :
    retrieve embed topK s q none = retrieve embed topK s q (some topK) ∧
      retrieve embed topK s q (some 0) = retrieve embed topK s q (some topK) ∧
      ∃ res, retrieve embed topK s q none = .ok res ∧ res ≠ [] := by
  have h1 : retrieve embed topK s q none =
      retrLoop s.documents (faissSearch vecs (embed q) topK) := by
    unfold retrieve
    rw [hidx]
  have h2 : retrieve embed topK s q (some 0) =
      retrLoop s.documents (faissSearch vecs (embed q) topK) := by
    unfold retrieve
    rw [hidx]
    rfl
  have h3 : retrieve embed topK s q (some topK) =
      retrLoop s.documents (faissSearch vecs (embed q) topK) := by
    unfold retrieve
    rw [hidx]
    simp only
    rw [if_neg (by omega : ¬ topK = 0)]
  obtain ⟨res, hres, hreslen⟩ :=
    retrLoop_length s.documents (faissSearch vecs (embed q) topK)
      (fun i hi => by
        rw [hlen]
        exact faissSearch_mem_range vecs (embed q) topK hne i hi)
  refine ⟨h1.trans h3.symm, h2.trans h3.symm, res, h1.trans hres, ?_⟩
  have hpos : 0 < res.length := by
    rw [hreslen, faissSearch_length]
    have hn : 0 < vecs.length := List.length_pos.mpr hne
    omega
  exact List.length_pos.mp hpos

/-- C10 (witness). -/
theorem C10_witness :
    (⟨some [[0], [1], [2]], [['a'], ['b'], ['c']]⟩ : Retriever).index =
        some [[0], [1], [2]] ∧
      ([[0], [1], [2]] : List Vec) ≠ [] ∧
      (⟨some [[0], [1], [2]], [['a'], ['b'], ['c']]⟩ : Retriever).documents.length =
        ([[0], [1], [2]] : List Vec).length ∧
      (0 : Nat) < 5 ∧
      (retrieve emC 5 ⟨some [[0], [1], [2]], [['a'], ['b'], ['c']]⟩ ['q'] none =
          retrieve emC 5 ⟨some [[0], [1], [2]], [['a'], ['b'], ['c']]⟩ ['q'] (some 5) ∧
        retrieve emC 5 ⟨some [[0], [1], [2]], [['a'], ['b'], ['c']]⟩ ['q'] (some 0) =
          retrieve emC 5 ⟨some [[0], [1], [2]], [['a'], ['b'], ['c']]⟩ ['q'] (some 5) ∧
        ∃ res,
          retrieve emC 5 ⟨some [[0], [1], [2]], [['a'], ['b'], ['c']]⟩ ['q'] none =
              .ok res ∧ res ≠ []) :=
  ⟨rfl, by decide, by decide, by decide,
    C10_k_fallback emC 5 ⟨some [[0], [1], [2]], [['a'], ['b'], ['c']]⟩ ['q']
      [[0], [1], [2]] rfl (by decide) (by decide) (by decide)⟩
